import Mathlib

/-!
Shallow embedding of the rssy feed-ingestion core
(backend/internal/services/fetcher.go, backend/internal/services/poller.go,
backend/internal/database/post_repository.go,
backend/internal/database/feed_repository.go,
backend/internal/database/schema.go) together with proofs of the
specification's claims about it.

Modelling conventions:
- `time.Time` values are modelled as `Nat` (an abstract instant; only
  equality and order matter to the claims).
- Go `int64`/`int` identifiers are modelled as `Int` (they are opaque ids,
  no arithmetic overflow is relevant).
- The SQLite store is a `DBState`: the `feeds` table and the `posts` table
  as lists of rows, plus the AUTOINCREMENT counter for post ids.  The audit
  columns `created_at`/`updated_at` are omitted: no claim mentions them.
- The `UNIQUE(feed_id, guid)` constraint of schema.go is enforced inside
  `createPost`, atomically, exactly as SQLite enforces its unique index:
  an insert that would violate it fails and leaves the store unchanged.
- Network retrieval and parsing (`gofeed.Parser.ParseURL`) is an oracle
  `parse : String → Except String (List Item)` mapping a URL to either a
  parse error or the ordered list of items of the document.
- Storage reads are modelled reliable (the deterministic content of the
  store); storage-level write conflicts are modelled by `createPost`
  returning an error.
-/

namespace Rssy

/-- gofeed.Person: the explicit author field of a feed item. -/
structure Person where
  name : String
deriving DecidableEq, Repr

/-- gofeed.Image: the explicit image field of a feed item. -/
structure FeedImage where
  url : String
deriving DecidableEq, Repr

/-- gofeed.Enclosure: an enclosure with its URL and declared MIME type. -/
structure Enclosure where
  url : String
  type : String
deriving DecidableEq, Repr

/-- gofeed.Item: the fields of a parsed feed item that fetcher.go reads. -/
structure Item where
  title : String
  link : String
  description : String
  content : String
  guid : String
  author : Option Person
  publishedParsed : Option Nat
  updatedParsed : Option Nat
  image : Option FeedImage
  enclosures : List Enclosure
deriving DecidableEq, Repr

/-- models.Feed / a row of the `feeds` table (schema.go). -/
structure Feed where
  id : Int
  name : String
  url : String
  category : Option String
  siteURL : Option String
  description : Option String
  isActive : Bool
  lastFetchedAt : Option Nat
  errorCount : Int
  lastError : Option String
deriving DecidableEq, Repr

/-- models.Post / a row of the `posts` table (schema.go). -/
structure Post where
  id : Int
  feedID : Int
  title : String
  link : String
  description : String
  content : String
  author : String
  publishedAt : Option Nat
  imageURL : String
  guid : String
  isRead : Bool
deriving DecidableEq, Repr

/-- The SQLite store: both tables plus the AUTOINCREMENT counter for posts. -/
structure DBState where
  feeds : List Feed
  posts : List Post
  nextPostID : Int
deriving DecidableEq, Repr

/-- database.GetPostByGUID: `SELECT ... FROM posts WHERE feed_id = ? AND guid = ?`;
`sql.ErrNoRows` is mapped to `nil, nil`, i.e. `none` here. -/
def getPostByGUID (s : DBState) (feedID : Int) (guid : String) : Option Post :=
  s.posts.find? (fun p => p.feedID == feedID && p.guid == guid)

/-- database.CreatePost: `INSERT INTO posts (...) VALUES (...)`.  The unique
index `UNIQUE(feed_id, guid)` of schema.go makes the insert fail atomically
when the pair is already present; on success the row is stored and receives
the next AUTOINCREMENT id (Go then copies `LastInsertId` into `post.ID`). -/
def createPost (s : DBState) (p : Post) : Except String DBState :=
  if s.posts.any (fun q => q.feedID == p.feedID && q.guid == p.guid) then
    Except.error "UNIQUE constraint failed: posts.feed_id, posts.guid"
  else
    Except.ok
      { s with
        posts := s.posts ++ [{ p with id := s.nextPostID }]
        nextPostID := s.nextPostID + 1 }

/-- database.UpdateFeedLastFetched:
`UPDATE feeds SET last_fetched_at = ? WHERE id = ?`. -/
def updateFeedLastFetched (s : DBState) (id : Int) (t : Nat) : DBState :=
  { s with
    feeds := s.feeds.map fun f =>
      if f.id == id then { f with lastFetchedAt := some t } else f }

/-- database.GetAllFeeds: `SELECT ... FROM feeds ORDER BY name ASC`. -/
def getAllFeeds (s : DBState) : List Feed :=
  s.feeds.mergeSort (fun a b => decide (a.name ≤ b.name))

/-- getAuthor of fetcher.go: the explicit author's name if present, else `""`. -/
def getAuthor (item : Item) : String :=
  match item.author with
  | some a => a.name
  | none => ""

/-- getPublishedTime of fetcher.go: PublishedParsed if present, else
UpdatedParsed if present, else nil. -/
def getPublishedTime (item : Item) : Option Nat :=
  match item.publishedParsed with
  | some t => some t
  | none =>
    match item.updatedParsed with
    | some t => some t
    | none => none

/-- The enclosure scan of getImageURL in fetcher.go:
`if enclosure.Type != "" && len(enclosure.Type) >= 5 && enclosure.Type[:5] == "image"`.
Go strings are byte lists; a Lean `String` carries its characters in `.data`,
so `len` is `.length` and the slice `Type[:5]` is `.data.take 5`. -/
def enclosureImage : List Enclosure → String
  | [] => ""
  | e :: rest =>
    if e.type ≠ "" ∧ 5 ≤ e.type.length ∧ e.type.data.take 5 = "image".data then
      e.url
    else
      enclosureImage rest

/-- getImageURL of fetcher.go: the explicit image URL if present, else the
first enclosure whose declared MIME type passes the `image` check, else `""`. -/
def getImageURL (item : Item) : String :=
  match item.image with
  | some img => img.url
  | none => enclosureImage item.enclosures

/-- The post literal built inside the loop of FetchFeed (fetcher.go line 49):
`post := &models.Post{FeedID: feed.ID, Title: item.Title, ...}`.  Go zero
values give `ID = 0` and `IsRead = false`; `CreatePost` later assigns the id. -/
def mkPost (feedID : Int) (item : Item) : Post :=
  { id := 0
    feedID := feedID
    title := item.title
    link := item.link
    description := item.description
    content := item.content
    author := getAuthor item
    publishedAt := getPublishedTime item
    imageURL := getImageURL item
    guid := item.guid
    isRead := false }

/-- One iteration of the item loop in FetchFeed (fetcher.go lines 36-67):
look the guid up, skip when present, otherwise insert, and on an insert
error log and continue.  The Bool records whether `newPostCount++` ran. -/
def processItem (feedID : Int) (item : Item) (s : DBState) : DBState × Bool :=
  match getPostByGUID s feedID item.guid with
  | some _ => (s, false)
  | none =>
    match createPost s (mkPost feedID item) with
    | Except.error _ => (s, false)
    | Except.ok s1 => (s1, true)

/-- The item loop of FetchFeed in document order, returning the final store
and the value of `newPostCount`. -/
def processItems (feedID : Int) : List Item → DBState → DBState × Nat
  | [], s => (s, 0)
  | item :: rest, s =>
    let r1 := processItem feedID item s
    let r2 := processItems feedID rest r1.1
    (r2.1, r2.2 + (if r1.2 then 1 else 0))

/-- FetchFeed of fetcher.go: parse the URL; on error log and return the error
without touching the store; otherwise run the item loop and then update the
feed's last-fetched time.  The `Nat` is the logged `newPostCount`. -/
def fetchFeed (parse : String → Except String (List Item)) (now : Nat)
    (feed : Feed) (s : DBState) : DBState × Except String Nat :=
  match parse feed.url with
  | Except.error e => (s, Except.error e)
  | Except.ok items =>
    let r := processItems feed.id items s
    (updateFeedLastFetched r.1 feed.id now, Except.ok r.2)

/-- The loop of FetchAllFeeds over the snapshot returned by GetAllFeeds:
inactive feeds are skipped with `continue`; a FetchFeed error is logged and
the loop continues.  The `List Int` is ghost instrumentation recording, in
order, the ids of the feeds FetchFeed was invoked on. -/
def fetchAllLoop (parse : String → Except String (List Item)) (now : Nat) :
    List Feed → DBState → DBState × List Int
  | [], s => (s, [])
  | feed :: rest, s =>
    if feed.isActive then
      let r1 := fetchFeed parse now feed s
      let r2 := fetchAllLoop parse now rest r1.1
      (r2.1, feed.id :: r2.2)
    else
      fetchAllLoop parse now rest s

/-- FetchAllFeeds of fetcher.go.  `listErr` is the oracle for the one
fallible step, `db.GetAllFeeds()`: when it fails FetchAllFeeds returns that
error at once; otherwise the loop runs and the function returns nil.
The `List Int` is the ghost trace of feed ids FetchFeed was invoked on. -/
def fetchAllFeeds (listErr : Option String)
    (parse : String → Except String (List Item)) (now : Nat) (s : DBState) :
    DBState × Except String Unit × List Int :=
  match listErr with
  | some e => (s, Except.error e, [])
  | none =>
    let r := fetchAllLoop parse now (getAllFeeds s) s
    (r.1, Except.ok (), r.2)

/-- An atomic storage write, the granularity at which SQLite serialises
concurrent writers: an insert attempt into `posts` (which the unique index
accepts or rejects atomically) or a last-fetched update.  A concurrent run
of any number of FetchFeed invocations acts on the store as some interleaved
sequence of these. -/
inductive DBOp where
  | create (p : Post)
  | touch (id : Int) (t : Nat)
deriving Repr

/-- Effect of one atomic storage write on the store; a rejected insert
(unique-constraint conflict) leaves the store unchanged. -/
def applyOp (s : DBState) : DBOp → DBState
  | DBOp.create p =>
    match createPost s p with
    | Except.ok s1 => s1
    | Except.error _ => s
  | DBOp.touch id t => updateFeedLastFetched s id t

/-- Effect of a sequence of atomic storage writes. -/
def applyOps (s : DBState) (ops : List DBOp) : DBState :=
  ops.foldl applyOp s

/-- The central invariant of the schema: no two rows of `posts` agree on
the pair (feed_id, guid). -/
def UniquePosts (s : DBState) : Prop :=
  s.posts.Pairwise fun p q => ¬(p.feedID = q.feedID ∧ p.guid = q.guid)

/-- Whether some row of the given posts table has the given (feed_id, guid). -/
def guidInPosts (ps : List Post) (feedID : Int) (guid : String) : Prop :=
  ∃ p ∈ ps, p.feedID = feedID ∧ p.guid = guid

/-- Spec-side reading of author resolution: the explicit author field's
name when present, else the empty string. -/
def specAuthor (item : Item) : String :=
  (item.author.map Person.name).getD ""

/-- Spec-side reading of published-time resolution: the explicit published
time, else the explicit updated time, else null. -/
def specPublished (item : Item) : Option Nat :=
  item.publishedParsed.orElse fun _ => item.updatedParsed

/-- Spec-side reading of lead-image resolution: the explicit image field's
URL when present, else the URL of the first enclosure whose declared MIME
type begins with "image", else the empty string. -/
def specImageURL (item : Item) : String :=
  match item.image with
  | some img => img.url
  | none =>
    match item.enclosures.find? (fun e => decide ("image".data <+: e.type.data)) with
    | some e => e.url
    | none => ""

/-- The enclosure scan with Go's partial byte-slice made explicit:
`Type[:5]` panics when the string is shorter than five bytes, so the slice
is modelled as `none` in that case and the scan as a whole returns `none`
("panic") as soon as an out-of-range slice is taken.  The guard
`len(enclosure.Type) >= 5` is evaluated, short-circuit, before the slice,
exactly as in fetcher.go line 124. -/
def sliceTo (t : String) (n : Nat) : Option String :=
  if n ≤ t.length then some (String.mk (t.data.take n)) else none

/-- The enclosure loop of getImageURL with the partial slice explicit. -/
def enclosureImageChecked : List Enclosure → Option String
  | [] => some ""
  | e :: rest =>
    if e.type ≠ "" ∧ 5 ≤ e.type.length then
      match sliceTo e.type 5 with
      | none => none
      | some p =>
        if p = "image" then some e.url else enclosureImageChecked rest
    else
      enclosureImageChecked rest

/-- getImageURL with the partial slice explicit: `none` means the Go code
would have panicked with an out-of-range slice. -/
def getImageURLChecked (item : Item) : Option String :=
  match item.image with
  | some img => some img.url
  | none => enclosureImageChecked item.enclosures

/-! ### Basic lemmas about the store operations -/

theorem posts_updateFeedLastFetched (s : DBState) (id : Int) (t : Nat) :
    (updateFeedLastFetched s id t).posts = s.posts := rfl

theorem nextPostID_updateFeedLastFetched (s : DBState) (id : Int) (t : Nat) :
    (updateFeedLastFetched s id t).nextPostID = s.nextPostID := rfl

theorem createPost_ok_iff {s : DBState} {p : Post} :
    (∃ s1, createPost s p = Except.ok s1) ↔ ¬ guidInPosts s.posts p.feedID p.guid := by
  unfold createPost guidInPosts
  by_cases h : s.posts.any (fun q => q.feedID == p.feedID && q.guid == p.guid)
  · simp only [h, if_true]
    rw [List.any_eq_true] at h
    obtain ⟨q, hq, hpred⟩ := h
    simp only [Bool.and_eq_true, beq_iff_eq] at hpred
    constructor
    · rintro ⟨s1, hs1⟩; cases hs1
    · intro hno; exact absurd ⟨q, hq, hpred.1, hpred.2⟩ hno
  · simp only [h, if_false]
    rw [Bool.not_eq_true, List.any_eq_false] at h
    constructor
    · rintro - ⟨q, hq, h1, h2⟩
      exact h q hq (by simp [h1, h2])
    · intro _; exact ⟨_, rfl⟩

theorem createPost_eq_ok {s : DBState} {p : Post}
    (h : ¬ guidInPosts s.posts p.feedID p.guid) :
    createPost s p =
      Except.ok
        { s with
          posts := s.posts ++ [{ p with id := s.nextPostID }]
          nextPostID := s.nextPostID + 1 } := by
  unfold createPost
  rw [if_neg]
  intro hany
  rw [List.any_eq_true] at hany
  obtain ⟨q, hq, hpred⟩ := hany
  simp only [Bool.and_eq_true, beq_iff_eq] at hpred
  exact h ⟨q, hq, hpred.1, hpred.2⟩

theorem feeds_createPost {s : DBState} {p : Post} {s1 : DBState}
    (h : createPost s p = Except.ok s1) : s1.feeds = s.feeds := by
  unfold createPost at h
  by_cases hc : s.posts.any (fun q => q.feedID == p.feedID && q.guid == p.guid)
  · rw [if_pos hc] at h; cases h
  · rw [if_neg hc] at h; cases h; rfl

theorem posts_createPost {s : DBState} {p : Post} {s1 : DBState}
    (h : createPost s p = Except.ok s1) :
    s1.posts = s.posts ++ [{ p with id := s.nextPostID }] := by
  unfold createPost at h
  by_cases hc : s.posts.any (fun q => q.feedID == p.feedID && q.guid == p.guid)
  · rw [if_pos hc] at h; cases h
  · rw [if_neg hc] at h; cases h; rfl

theorem getPostByGUID_eq_none_iff (s : DBState) (fid : Int) (g : String) :
    getPostByGUID s fid g = none ↔ ¬ guidInPosts s.posts fid g := by
  unfold getPostByGUID guidInPosts
  rw [List.find?_eq_none]
  constructor
  · rintro h ⟨p, hp, h1, h2⟩
    exact h p hp (by simp [h1, h2])
  · intro h p hp hpred
    simp only [Bool.and_eq_true, beq_iff_eq] at hpred
    exact h ⟨p, hp, hpred.1, hpred.2⟩

/-! ### Lemmas about the item loop -/

theorem feeds_processItem (fid : Int) (it : Item) (s : DBState) :
    (processItem fid it s).1.feeds = s.feeds := by
  unfold processItem
  cases hg : getPostByGUID s fid it.guid with
  | some q => rfl
  | none =>
    cases hc : createPost s (mkPost fid it) with
    | error e => rfl
    | ok s1 => exact feeds_createPost hc

theorem feeds_processItems (fid : Int) (items : List Item) (s : DBState) :
    (processItems fid items s).1.feeds = s.feeds := by
  induction items generalizing s with
  | nil => rfl
  | cons it rest ih =>
    show (processItems fid rest (processItem fid it s).1).1.feeds = s.feeds
    rw [ih, feeds_processItem]

theorem mem_posts_processItem {p : Post} (fid : Int) (it : Item) (s : DBState)
    (h : p ∈ s.posts) : p ∈ (processItem fid it s).1.posts := by
  unfold processItem
  cases hg : getPostByGUID s fid it.guid with
  | some q => exact h
  | none =>
    cases hc : createPost s (mkPost fid it) with
    | error e => exact h
    | ok s1 =>
      show p ∈ s1.posts
      rw [posts_createPost hc]
      exact List.mem_append_left _ h

theorem mem_posts_processItems {p : Post} (fid : Int) (items : List Item)
    (s : DBState) (h : p ∈ s.posts) : p ∈ (processItems fid items s).1.posts := by
  induction items generalizing s with
  | nil => exact h
  | cons it rest ih =>
    exact ih (processItem fid it s).1 (mem_posts_processItem fid it s h)

theorem guidInPosts_mono_processItems {fid : Int} {g : String}
    (items : List Item) (s : DBState) (h : guidInPosts s.posts fid g) :
    guidInPosts (processItems fid items s).1.posts fid g := by
  obtain ⟨p, hp, h1, h2⟩ := h
  exact ⟨p, mem_posts_processItems fid items s hp, h1, h2⟩

theorem guidInPosts_processItem_self (fid : Int) (it : Item) (s : DBState) :
    guidInPosts (processItem fid it s).1.posts fid it.guid := by
  unfold processItem
  cases hg : getPostByGUID s fid it.guid with
  | some q =>
    have hq := List.find?_some hg
    simp only [Bool.and_eq_true, beq_iff_eq] at hq
    exact ⟨q, List.mem_of_find?_eq_some hg, hq.1, hq.2⟩
  | none =>
    rw [getPostByGUID_eq_none_iff] at hg
    have hc := @createPost_eq_ok s (mkPost fid it) hg
    rw [hc]
    refine ⟨{ mkPost fid it with id := s.nextPostID }, ?_, rfl, rfl⟩
    exact List.mem_append_right _ (List.mem_singleton.2 rfl)

theorem guidInPosts_processItems_of_mem (fid : Int) (items : List Item)
    (s : DBState) : ∀ it ∈ items, guidInPosts (processItems fid items s).1.posts fid it.guid := by
  induction items generalizing s with
  | nil => intro it h; cases h
  | cons hd rest ih =>
    intro it hmem
    rcases List.mem_cons.1 hmem with h | h
    · subst h
      exact guidInPosts_mono_processItems rest _
        (guidInPosts_processItem_self fid it s)
    · exact ih (processItem fid hd s).1 it h

theorem processItem_skip {fid : Int} {it : Item} {s : DBState}
    (h : guidInPosts s.posts fid it.guid) : processItem fid it s = (s, false) := by
  unfold processItem
  cases hg : getPostByGUID s fid it.guid with
  | some q => rfl
  | none => rw [getPostByGUID_eq_none_iff] at hg; exact absurd h hg

theorem processItems_noop {fid : Int} {items : List Item} {s : DBState}
    (h : ∀ it ∈ items, guidInPosts s.posts fid it.guid) :
    processItems fid items s = (s, 0) := by
  induction items with
  | nil => rfl
  | cons it rest ih =>
    have h1 : processItem fid it s = (s, false) :=
      processItem_skip (h it (List.mem_cons_self it rest))
    show (let r1 := processItem fid it s
          let r2 := processItems fid rest r1.1
          (r2.1, r2.2 + (if r1.2 then 1 else 0))) = (s, 0)
    rw [h1]
    have h2 : processItems fid rest s = (s, 0) :=
      ih fun x hx => h x (List.mem_cons_of_mem it hx)
    simp [h2]

/-! ### The uniqueness invariant under atomic storage writes -/

theorem uniquePosts_createPost {s : DBState} {p : Post} {s1 : DBState}
    (hu : UniquePosts s) (h : createPost s p = Except.ok s1) : UniquePosts s1 := by
  have hno : ¬ guidInPosts s.posts p.feedID p.guid := by
    rw [← createPost_ok_iff]; exact ⟨s1, h⟩
  unfold UniquePosts
  rw [posts_createPost h, List.pairwise_append]
  refine ⟨hu, List.pairwise_singleton _ _, ?_⟩
  intro a ha b hb
  rw [List.mem_singleton] at hb
  subst hb
  rintro ⟨h1, h2⟩
  exact hno ⟨a, ha, h1, h2⟩

theorem uniquePosts_updateFeedLastFetched {s : DBState} (hu : UniquePosts s)
    (id : Int) (t : Nat) : UniquePosts (updateFeedLastFetched s id t) := hu

theorem uniquePosts_applyOp {s : DBState} (hu : UniquePosts s) (op : DBOp) :
    UniquePosts (applyOp s op) := by
  cases op with
  | create p =>
    cases hc : createPost s p with
    | error e => simpa [applyOp, hc] using hu
    | ok s1 => simpa [applyOp, hc] using uniquePosts_createPost hu hc
  | touch id t => exact hu

theorem uniquePosts_applyOps {s : DBState} (hu : UniquePosts s) (ops : List DBOp) :
    UniquePosts (applyOps s ops) := by
  induction ops generalizing s with
  | nil => exact hu
  | cons op rest ih => exact ih (uniquePosts_applyOp hu op)

theorem uniquePosts_processItem {s : DBState} (hu : UniquePosts s)
    (fid : Int) (it : Item) : UniquePosts (processItem fid it s).1 := by
  unfold processItem
  cases hg : getPostByGUID s fid it.guid with
  | some q => exact hu
  | none =>
    cases hc : createPost s (mkPost fid it) with
    | error e => exact hu
    | ok s1 => exact uniquePosts_createPost hu hc

theorem uniquePosts_processItems {s : DBState} (hu : UniquePosts s)
    (fid : Int) (items : List Item) : UniquePosts (processItems fid items s).1 := by
  induction items generalizing s with
  | nil => exact hu
  | cons it rest ih => exact ih (uniquePosts_processItem hu fid it)

theorem uniquePosts_fetchFeed {s : DBState} (hu : UniquePosts s)
    (parse : String → Except String (List Item)) (now : Nat) (feed : Feed) :
    UniquePosts (fetchFeed parse now feed s).1 := by
  unfold fetchFeed
  cases parse feed.url with
  | error e => exact hu
  | ok items => exact uniquePosts_processItems hu feed.id items

/-! ### Every FetchFeed run is a sequence of atomic storage writes -/

theorem applyOps_cons (s : DBState) (op : DBOp) (ops : List DBOp) :
    applyOps s (op :: ops) = applyOps (applyOp s op) ops := rfl

theorem applyOps_append (s : DBState) (l1 l2 : List DBOp) :
    applyOps s (l1 ++ l2) = applyOps (applyOps s l1) l2 :=
  List.foldl_append applyOp s l1 l2

theorem exists_ops_processItems (fid : Int) (items : List Item) (s : DBState) :
    ∃ ops, (processItems fid items s).1 = applyOps s ops := by
  induction items generalizing s with
  | nil => exact ⟨[], rfl⟩
  | cons it rest ih =>
    show ∃ ops, (processItems fid rest (processItem fid it s).1).1 = applyOps s ops
    unfold processItem
    cases hg : getPostByGUID s fid it.guid with
    | some q => exact ih s
    | none =>
      cases hc : createPost s (mkPost fid it) with
      | error e =>
        obtain ⟨ops, hops⟩ := ih s
        refine ⟨DBOp.create (mkPost fid it) :: ops, ?_⟩
        rw [applyOps_cons]
        have hstep : applyOp s (DBOp.create (mkPost fid it)) = s := by
          simp [applyOp, hc]
        rw [hstep]; exact hops
      | ok s1 =>
        obtain ⟨ops, hops⟩ := ih s1
        refine ⟨DBOp.create (mkPost fid it) :: ops, ?_⟩
        rw [applyOps_cons]
        have hstep : applyOp s (DBOp.create (mkPost fid it)) = s1 := by
          simp [applyOp, hc]
        rw [hstep]; exact hops

theorem exists_ops_fetchFeed (parse : String → Except String (List Item))
    (now : Nat) (feed : Feed) (s : DBState) :
    ∃ ops, (fetchFeed parse now feed s).1 = applyOps s ops := by
  unfold fetchFeed
  cases parse feed.url with
  | error e => exact ⟨[], rfl⟩
  | ok items =>
    obtain ⟨ops, hops⟩ := exists_ops_processItems feed.id items s
    refine ⟨ops ++ [DBOp.touch feed.id now], ?_⟩
    show updateFeedLastFetched (processItems feed.id items s).1 feed.id now =
      applyOps s (ops ++ [DBOp.touch feed.id now])
    rw [applyOps_append, ← hops]
    rfl

/-! ### The enclosure MIME check agrees with "begins with image" -/

theorem imageCheck_iff (t : String) :
    (t ≠ "" ∧ 5 ≤ t.length ∧ t.data.take 5 = "image".data) ↔
      "image".data <+: t.data := by
  constructor
  · rintro ⟨-, -, h3⟩
    rw [List.prefix_iff_eq_take]
    exact h3.symm
  · intro h
    have hlen : 5 ≤ t.data.length := by
      have h5 := h.length_le
      exact le_trans (by rfl) h5
    have htake : t.data.take 5 = "image".data := by
      rw [List.prefix_iff_eq_take] at h
      exact h.symm
    refine ⟨?_, hlen, htake⟩
    intro he
    subst he
    simp at hlen

theorem enclosureImage_eq_spec (es : List Enclosure) :
    enclosureImage es =
      match es.find? (fun e => decide ("image".data <+: e.type.data)) with
      | some e => e.url
      | none => "" := by
  induction es with
  | nil => rfl
  | cons e rest ih =>
    by_cases h : "image".data <+: e.type.data
    · rw [List.find?_cons_of_pos rest (by simpa using h)]
      show (if e.type ≠ "" ∧ 5 ≤ e.type.length ∧ e.type.data.take 5 = "image".data
            then e.url else enclosureImage rest) = e.url
      rw [if_pos ((imageCheck_iff e.type).2 h)]
    · rw [List.find?_cons_of_neg rest (by simpa using h)]
      show (if e.type ≠ "" ∧ 5 ≤ e.type.length ∧ e.type.data.take 5 = "image".data
            then e.url else enclosureImage rest) = _
      rw [if_neg fun hc => h ((imageCheck_iff e.type).1 hc)]
      exact ih

theorem enclosureImageChecked_eq (es : List Enclosure) :
    enclosureImageChecked es = some (enclosureImage es) := by
  induction es with
  | nil => rfl
  | cons e rest ih =>
    rw [enclosureImageChecked, enclosureImage]
    by_cases h12 : e.type ≠ "" ∧ 5 ≤ e.type.length
    · have hslice : sliceTo e.type 5 = some (String.mk (e.type.data.take 5)) := by
        unfold sliceTo
        rw [if_pos h12.2]
      rw [if_pos h12, hslice]
      show (if String.mk (e.type.data.take 5) = "image" then some e.url
            else enclosureImageChecked rest) = _
      by_cases h3 : e.type.data.take 5 = "image".data
      · rw [if_pos (String.ext_iff.2 h3), if_pos ⟨h12.1, h12.2, h3⟩]
      · rw [if_neg fun hc => h3 (String.ext_iff.1 hc),
          if_neg fun hc => h3 hc.2.2]
        exact ih
    · rw [if_neg h12, if_neg fun hc => h12 ⟨hc.1, hc.2.1⟩]
      exact ih

/-! ### Unfolding and bookkeeping lemmas for FetchFeed -/

theorem processItems_cons (fid : Int) (x : Item) (l : List Item) (s : DBState) :
    processItems fid (x :: l) s =
      ((processItems fid l (processItem fid x s).1).1,
       (processItems fid l (processItem fid x s).1).2 +
         (if (processItem fid x s).2 then 1 else 0)) := rfl

theorem guidInPosts_mono_processItem {fid : Int} {g : String} (it : Item)
    (s : DBState) (h : guidInPosts s.posts fid g) :
    guidInPosts (processItem fid it s).1.posts fid g := by
  obtain ⟨q, hq, h1, h2⟩ := h
  exact ⟨q, mem_posts_processItem fid it s hq, h1, h2⟩

theorem processItems_skip_mid {fid : Int} {b : Item} (pre rest : List Item)
    (s : DBState) (h : guidInPosts s.posts fid b.guid) :
    processItems fid (pre ++ b :: rest) s = processItems fid (pre ++ rest) s := by
  induction pre generalizing s with
  | nil =>
    show processItems fid (b :: rest) s = processItems fid rest s
    rw [processItems_cons, processItem_skip h]
    simp
  | cons p pre ih =>
    show processItems fid (p :: (pre ++ b :: rest)) s
      = processItems fid (p :: (pre ++ rest)) s
    rw [processItems_cons, processItems_cons,
      ih (processItem fid p s).1 (guidInPosts_mono_processItem p s h)]

theorem posts_fetchFeed_ok {parse : String → Except String (List Item)}
    {now : Nat} {feed : Feed} {s : DBState} {items : List Item}
    (hdoc : parse feed.url = Except.ok items) :
    (fetchFeed parse now feed s).1.posts = (processItems feed.id items s).1.posts := by
  simp only [fetchFeed, hdoc]
  rfl

theorem feeds_fetchFeed_ok {parse : String → Except String (List Item)}
    {now : Nat} {feed : Feed} {s : DBState} {items : List Item}
    (hdoc : parse feed.url = Except.ok items) :
    (fetchFeed parse now feed s).1.feeds =
      s.feeds.map fun f =>
        if f.id == feed.id then { f with lastFetchedAt := some now } else f := by
  simp only [fetchFeed, hdoc]
  show ((processItems feed.id items s).1.feeds).map _ = _
  rw [feeds_processItems]

theorem touched_row_fetchFeed_ok {parse : String → Except String (List Item)}
    {now : Nat} {feed : Feed} {s : DBState} {items : List Item}
    (hdoc : parse feed.url = Except.ok items) {f : Feed}
    (hmem : f ∈ s.feeds) (hid : f.id = feed.id) :
    ∃ g ∈ (fetchFeed parse now feed s).1.feeds,
      g.id = feed.id ∧ g.lastFetchedAt = some now := by
  rw [feeds_fetchFeed_ok hdoc]
  refine ⟨{ f with lastFetchedAt := some now }, ?_, hid, rfl⟩
  rw [List.mem_map]
  refine ⟨f, hmem, ?_⟩
  rw [if_pos (beq_iff_eq.2 hid)]

theorem lastFetched_rows_fetchFeed_ok {parse : String → Except String (List Item)}
    {now : Nat} {feed : Feed} {s : DBState} {items : List Item}
    (hdoc : parse feed.url = Except.ok items) :
    ∀ g ∈ (fetchFeed parse now feed s).1.feeds,
      g.id = feed.id → g.lastFetchedAt = some now := by
  rw [feeds_fetchFeed_ok hdoc]
  intro g hg hid
  rw [List.mem_map] at hg
  obtain ⟨f, hf, hgf⟩ := hg
  by_cases hc : f.id = feed.id
  · rw [← hgf, if_pos (beq_iff_eq.2 hc)]
  · rw [← hgf, if_neg fun hb => hc (beq_iff_eq.1 hb)] at hid
    exact absurd hid hc

theorem fetchFeed_ok_eq {parse : String → Except String (List Item)}
    {now : Nat} {feed : Feed} {s : DBState} {items : List Item}
    (hdoc : parse feed.url = Except.ok items) :
    fetchFeed parse now feed s =
      (updateFeedLastFetched (processItems feed.id items s).1 feed.id now,
       Except.ok (processItems feed.id items s).2) := by
  simp only [fetchFeed, hdoc]

theorem fetchFeed_err {parse : String → Except String (List Item)}
    {now : Nat} {feed : Feed} {s : DBState} {e : String}
    (h : parse feed.url = Except.error e) :
    fetchFeed parse now feed s = (s, Except.error e) := by
  simp only [fetchFeed, h]

theorem fetchAllLoop_trace (parse : String → Except String (List Item))
    (now : Nat) (l : List Feed) (s : DBState) :
    (fetchAllLoop parse now l s).2 =
      (l.filter fun f => f.isActive).map fun f => f.id := by
  induction l generalizing s with
  | nil => rfl
  | cons feed rest ih =>
    by_cases h : feed.isActive
    · rw [List.filter_cons_of_pos h]
      show (fetchAllLoop parse now (feed :: rest) s).2 = feed.id :: _
      simp only [fetchAllLoop, if_pos h]
      rw [ih]
    · rw [List.filter_cons_of_neg (by simpa using h)]
      simp only [fetchAllLoop, if_neg h]
      exact ih s

/-! ### Concrete inputs used by the witness theorems -/

def feedW : Feed :=
  { id := 1, name := "example", url := "https://example.test/feed.xml",
    category := none, siteURL := none, description := none, isActive := true,
    lastFetchedAt := none, errorCount := 0, lastError := none }

def feedW2 : Feed :=
  { feedW with id := 2, name := "other", url := "https://other.test/feed.xml" }

def itemW1 : Item :=
  { title := "t1", link := "l1", description := "d1", content := "c1",
    guid := "p1", author := some { name := "alice" },
    publishedParsed := some 10, updatedParsed := none, image := none,
    enclosures := [{ url := "e1", type := "image/jpeg" }] }

def itemW2 : Item :=
  { title := "t2", link := "l2", description := "d2", content := "c2",
    guid := "p2", author := none, publishedParsed := none,
    updatedParsed := some 20, image := none, enclosures := [] }

def itemW1dup : Item :=
  { itemW2 with title := "dup", guid := "p1" }

def sW : DBState := { feeds := [feedW], posts := [], nextPostID := 1 }

def sW1 : DBState :=
  { feeds := [feedW], posts := [{ mkPost 1 itemW1 with id := 1 }], nextPostID := 2 }

def parseW : String → Except String (List Item) :=
  fun _ => Except.ok [itemW1, itemW2]

def parseFailW : String → Except String (List Item) :=
  fun _ => Except.error "network unreachable"

def rowAbc1 : Post :=
  { id := 1, feedID := 1, title := "x", link := "", description := "",
    content := "", author := "", publishedAt := none, imageURL := "",
    guid := "abc", isRead := false }

def pAbc2 : Post := { rowAbc1 with id := 0, feedID := 2 }

def s9 : DBState := { feeds := [feedW, feedW2], posts := [rowAbc1], nextPostID := 2 }

/-! ### The claims -/

/-- Claim C1: for every Source, after any sequence of FetchFeed invocations
(sequential or concurrent, including repeated fetches of the same document),
no two stored Entries of that Source share a guid.  `UniquePosts` (no two
rows of `posts` agree on (feed_id, guid)) is preserved by every sequence of
atomic storage writes — hence by every interleaving of concurrent FetchFeed
invocations, since the second conjunct shows each FetchFeed run acts on the
store as such a sequence — and by each sequential FetchFeed invocation
directly. -/
theorem claim1_per_source_guid_unique (s : DBState) (hu : UniquePosts s) :
    (∀ ops : List DBOp, UniquePosts (applyOps s ops)) ∧
    (∀ (parse : String → Except String (List Item)) (now : Nat) (feed : Feed),
      ∃ ops, (fetchFeed parse now feed s).1 = applyOps s ops) ∧
    (∀ (parse : String → Except String (List Item)) (now : Nat) (feed : Feed),
      UniquePosts (fetchFeed parse now feed s).1) :=
  ⟨fun ops => uniquePosts_applyOps hu ops,
   fun parse now feed => exists_ops_fetchFeed parse now feed s,
   fun parse now feed => uniquePosts_fetchFeed hu parse now feed⟩

theorem claim1_witness :
    UniquePosts sW ∧
    UniquePosts (applyOps sW
      [DBOp.create (mkPost 1 itemW1), DBOp.create (mkPost 1 itemW1dup),
       DBOp.create (mkPost 2 itemW1), DBOp.touch 1 5]) ∧
    UniquePosts (fetchFeed parseW 5 feedW sW).1 := by
  have hu : UniquePosts sW := List.Pairwise.nil
  exact ⟨hu, (claim1_per_source_guid_unique sW hu).1 _,
    (claim1_per_source_guid_unique sW hu).2.2 parseW 5 feedW⟩

/-- Claim C2: fetching the same feed document twice in succession (the
remote document unchanged between fetches) creates zero new Entries on the
second FetchFeed invocation, leaves the stored posts unchanged, and still
sets the Source's last-fetch timestamp to the second fetch's time. -/
theorem claim2_idempotent_ingestion
    (parse : String → Except String (List Item)) (feed : Feed) (s : DBState)
    (items : List Item) (t1 t2 : Nat)
    (hdoc : parse feed.url = Except.ok items)
    (hf : ∃ f ∈ s.feeds, f.id = feed.id) :
    (fetchFeed parse t2 feed (fetchFeed parse t1 feed s).1).2 = Except.ok 0 ∧
    (fetchFeed parse t2 feed (fetchFeed parse t1 feed s).1).1.posts
      = (fetchFeed parse t1 feed s).1.posts ∧
    ∃ g ∈ (fetchFeed parse t2 feed (fetchFeed parse t1 feed s).1).1.feeds,
      g.id = feed.id ∧ g.lastFetchedAt = some t2 := by
  have hcover : ∀ it ∈ items,
      guidInPosts (fetchFeed parse t1 feed s).1.posts feed.id it.guid := by
    intro it hit
    rw [posts_fetchFeed_ok hdoc]
    exact guidInPosts_processItems_of_mem feed.id items s it hit
  have hnoop : processItems feed.id items (fetchFeed parse t1 feed s).1
      = ((fetchFeed parse t1 feed s).1, 0) := processItems_noop hcover
  have h2 : fetchFeed parse t2 feed (fetchFeed parse t1 feed s).1
      = (updateFeedLastFetched (fetchFeed parse t1 feed s).1 feed.id t2,
         Except.ok 0) := by
    rw [fetchFeed_ok_eq hdoc, hnoop]
  refine ⟨by rw [h2], by rw [h2]; rfl, ?_⟩
  obtain ⟨f, hfm, hfid⟩ := hf
  obtain ⟨g, hgm, hgid, -⟩ :=
    @touched_row_fetchFeed_ok parse t1 feed s items hdoc f hfm hfid
  exact @touched_row_fetchFeed_ok parse t2 feed (fetchFeed parse t1 feed s).1
    items hdoc g hgm hgid

theorem claim2_witness :
    (fetchFeed parseW 7 feedW (fetchFeed parseW 5 feedW sW).1).2 = Except.ok 0 ∧
    (fetchFeed parseW 7 feedW (fetchFeed parseW 5 feedW sW).1).1.posts
      = (fetchFeed parseW 5 feedW sW).1.posts ∧
    ∃ g ∈ (fetchFeed parseW 7 feedW (fetchFeed parseW 5 feedW sW).1).1.feeds,
      g.id = feedW.id ∧ g.lastFetchedAt = some 7 :=
  claim2_idempotent_ingestion parseW feedW sW [itemW1, itemW2] 5 7 rfl
    ⟨feedW, List.mem_singleton.2 rfl, rfl⟩

/-- Claim C3: if retrieval or parsing of a Source's document fails, FetchFeed
returns that error and the store is completely unchanged (no Entry inserted,
no Source state modified); and inside the FetchAllFeeds loop such a failure
only logs, so the loop still proceeds to the remaining feeds. -/
theorem claim3_parse_failure_isolated
    (parse : String → Except String (List Item)) (now : Nat) (feed : Feed)
    (s : DBState) (e : String) (rest : List Feed)
    (h : parse feed.url = Except.error e) :
    fetchFeed parse now feed s = (s, Except.error e) ∧
    (feed.isActive = true →
      fetchAllLoop parse now (feed :: rest) s =
        ((fetchAllLoop parse now rest s).1,
         feed.id :: (fetchAllLoop parse now rest s).2)) := by
  refine ⟨fetchFeed_err h, fun ha => ?_⟩
  simp only [fetchAllLoop, if_pos ha, fetchFeed_err h]

theorem claim3_witness :
    fetchFeed parseFailW 5 feedW sW = (sW, Except.error "network unreachable") ∧
    fetchAllLoop parseFailW 5 (feedW :: [feedW2]) sW =
      ((fetchAllLoop parseFailW 5 [feedW2] sW).1,
       feedW.id :: (fetchAllLoop parseFailW 5 [feedW2] sW).2) := by
  have h := claim3_parse_failure_isolated parseFailW 5 feedW sW
    "network unreachable" [feedW2] rfl
  exact ⟨h.1, h.2 rfl⟩

/-- Claim C4: FetchAllFeeds invokes FetchFeed for exactly the active Sources
(in the order GetAllFeeds yields them) and skips every inactive Source; a
failure fetching one Source never prevents attempting the rest (the recorded
invocation trace is independent of the parse oracle); and FetchAllFeeds
itself returns an error exactly when listing the Sources fails. -/
theorem claim4_fetchAll_active_coverage
    (parse : String → Except String (List Item)) (now : Nat) (s : DBState) :
    (∀ e, fetchAllFeeds (some e) parse now s = (s, Except.error e, [])) ∧
    (fetchAllFeeds none parse now s).2.1 = Except.ok () ∧
    (fetchAllFeeds none parse now s).2.2
      = ((getAllFeeds s).filter fun f => f.isActive).map (fun f => f.id) ∧
    ∀ f ∈ s.feeds, f.isActive = true →
      f.id ∈ (fetchAllFeeds none parse now s).2.2 := by
  have htr : (fetchAllFeeds none parse now s).2.2
      = ((getAllFeeds s).filter fun f => f.isActive).map fun f => f.id :=
    fetchAllLoop_trace parse now (getAllFeeds s) s
  refine ⟨fun e => rfl, rfl, htr, ?_⟩
  intro f hf ha
  rw [htr, List.mem_map]
  refine ⟨f, ?_, rfl⟩
  rw [List.mem_filter]
  exact ⟨List.mem_mergeSort.2 hf, ha⟩

theorem claim4_witness :
    fetchAllFeeds (some "connection lost") parseW 5 sW
      = (sW, Except.error "connection lost", []) ∧
    (fetchAllFeeds none parseW 5 sW).2.1 = Except.ok () ∧
    (fetchAllFeeds none parseW 5 sW).2.2
      = ((getAllFeeds sW).filter fun f => f.isActive).map (fun f => f.id) ∧
    feedW.id ∈ (fetchAllFeeds none parseW 5 sW).2.2 := by
  have h := claim4_fetchAll_active_coverage parseW 5 sW
  exact ⟨h.1 "connection lost", h.2.1, h.2.2.1,
    h.2.2.2 feedW (List.mem_singleton.2 rfl) rfl⟩

/-- Claim C5: for every raw entry, the normalized Entry candidate resolves
author to the explicit author field's name if present else the empty string,
published timestamp to the explicit published time, else the explicit
updated time, else null, and lead-image to the explicit image field's URL,
else the URL of the first enclosure whose declared MIME type begins with
"image", else the empty string. -/
theorem claim5_entry_field_resolution (item : Item) :
    getAuthor item = specAuthor item ∧
    getPublishedTime item = specPublished item ∧
    getImageURL item = specImageURL item := by
  refine ⟨?_, ?_, ?_⟩
  · unfold getAuthor specAuthor
    cases item.author <;> rfl
  · unfold getPublishedTime specPublished
    cases item.publishedParsed with
    | some t => rfl
    | none =>
      cases item.updatedParsed <;> rfl
  · unfold getImageURL specImageURL
    cases item.image with
    | some img => rfl
    | none => exact enclosureImage_eq_spec item.enclosures

/-- Claim C6 counterexample: on a failed fetch attempt the code writes
nothing at all: the store is returned unchanged, the feed row keeps a null
last-fetch timestamp, a zero error counter and a null last-error — refuting
the claim that the timestamp is updated after every attempt and that the
error counter and last-error message are written on failure. -/
theorem claim6_counterexample :
    (fetchFeed parseFailW 5 feedW sW).1 = sW ∧
    sW.feeds = [feedW] ∧
    feedW.lastFetchedAt = none ∧ feedW.errorCount = 0 ∧ feedW.lastError = none := by
  refine ⟨?_, rfl, rfl, rfl, rfl⟩
  rw [@fetchFeed_err parseFailW 5 feedW sW "network unreachable" rfl]

/-- Claim C6 (amended): after a successful fetch attempt the Fetcher sets
the Source's last-fetch timestamp to the fetch time; after a failed
(retrieval/parse) attempt it returns early and modifies nothing — neither
the timestamp nor the error counter nor the last-error message is written
(the ingestion core never writes the error fields at all). -/
theorem claim6_amended_bookkeeping
    (parse : String → Except String (List Item)) (now : Nat) (feed : Feed)
    (s : DBState) :
    (∀ e, parse feed.url = Except.error e →
      fetchFeed parse now feed s = (s, Except.error e)) ∧
    (∀ items, parse feed.url = Except.ok items →
      ∀ g ∈ (fetchFeed parse now feed s).1.feeds,
        g.id = feed.id → g.lastFetchedAt = some now) :=
  ⟨fun _ h => fetchFeed_err h, fun _ h => lastFetched_rows_fetchFeed_ok h⟩

theorem claim6_witness :
    fetchFeed parseFailW 5 feedW sW = (sW, Except.error "network unreachable") ∧
    ({ feedW with lastFetchedAt := some 5 } : Feed).lastFetchedAt = some 5 := by
  refine ⟨(claim6_amended_bookkeeping parseFailW 5 feedW sW).1
    "network unreachable" rfl, ?_⟩
  exact (claim6_amended_bookkeeping parseW 5 feedW sW).2 [itemW1, itemW2] rfl
    { feedW with lastFetchedAt := some 5 } (by decide) rfl

/-- Claim C8: within one FetchFeed invocation raw entries are processed in
document order (processing a concatenation is processing the first part and
then the second from the resulting store); an entry whose guid is already
stored is skipped by the existence check; an entry whose guid is new is
inserted; and when a guid occurs twice in one document, the later occurrence
contributes nothing — only the first occurrence is inserted. -/
theorem claim8_document_order_first_occurrence (fid : Int) :
    (∀ xs ys s, processItems fid (xs ++ ys) s =
      ((processItems fid ys (processItems fid xs s).1).1,
       (processItems fid xs s).2 + (processItems fid ys (processItems fid xs s).1).2)) ∧
    (∀ it s, guidInPosts s.posts fid it.guid → processItem fid it s = (s, false)) ∧
    (∀ it s, ¬ guidInPosts s.posts fid it.guid →
      processItem fid it s =
        ({ s with posts := s.posts ++ [{ mkPost fid it with id := s.nextPostID }],
                  nextPostID := s.nextPostID + 1 }, true)) ∧
    (∀ pre (b : Item) rest s, (∃ a ∈ pre, a.guid = b.guid) →
      processItems fid (pre ++ b :: rest) s = processItems fid (pre ++ rest) s) := by
  refine ⟨?_, fun it s h => processItem_skip h, ?_, ?_⟩
  · intro xs ys s
    induction xs generalizing s with
    | nil =>
      show processItems fid ys s
        = ((processItems fid ys s).1, 0 + (processItems fid ys s).2)
      rcases hys : processItems fid ys s with ⟨a, b⟩
      simp
    | cons x xs ih =>
      rw [List.cons_append]
      rw [processItems_cons fid x (xs ++ ys) s, processItems_cons fid x xs s,
        ih (processItem fid x s).1]
      simp only [Prod.mk.injEq]
      constructor
      · trivial
      · omega
  · intro it s h
    unfold processItem
    rw [(getPostByGUID_eq_none_iff s fid it.guid).2 h, createPost_eq_ok h]
  · intro pre b rest
    induction pre with
    | nil =>
      intro s hex
      obtain ⟨a, ha, -⟩ := hex
      exact absurd ha (List.not_mem_nil a)
    | cons p pre ih =>
      intro s hex
      obtain ⟨a, ha, hg⟩ := hex
      rw [List.cons_append, List.cons_append, processItems_cons, processItems_cons]
      rcases List.mem_cons.1 ha with rfl | hmem
      · have hpresent : guidInPosts (processItem fid a s).1.posts fid b.guid := by
          rw [← hg]
          exact guidInPosts_processItem_self fid a s
        rw [processItems_skip_mid pre rest (processItem fid a s).1 hpresent]
      · rw [ih (processItem fid p s).1 ⟨a, hmem, hg⟩]

theorem claim8_witness :
    processItem 1 itemW1 sW1 = (sW1, false) ∧
    processItem 1 itemW1 sW =
      ({ sW with posts := sW.posts ++ [{ mkPost 1 itemW1 with id := sW.nextPostID }],
                 nextPostID := sW.nextPostID + 1 }, true) ∧
    processItems 1 ([itemW1] ++ itemW1dup :: []) sW
      = processItems 1 ([itemW1] ++ []) sW := by
  refine ⟨(claim8_document_order_first_occurrence 1).2.1 itemW1 sW1
      ⟨{ mkPost 1 itemW1 with id := 1 }, List.mem_singleton.2 rfl, rfl, rfl⟩,
    (claim8_document_order_first_occurrence 1).2.2.1 itemW1 sW ?_,
    (claim8_document_order_first_occurrence 1).2.2.2 [itemW1] itemW1dup [] sW
      ⟨itemW1, List.mem_singleton.2 rfl, rfl⟩⟩
  rintro ⟨p, hp, -, -⟩
  exact absurd hp (List.not_mem_nil p)

/-- Claim C9: two different Sources may simultaneously hold a stored Entry
with the same guid string: when another Source already owns a row with this
guid but this Source does not, the insert succeeds, the new row is stored
for this Source, and every previously stored row persists. -/
theorem claim9_cross_source_guid_reuse (s : DBState) (p : Post)
    (h1 : ∃ q ∈ s.posts, q.guid = p.guid ∧ q.feedID ≠ p.feedID)
    (h2 : ¬ guidInPosts s.posts p.feedID p.guid) :
    ∃ s1, createPost s p = Except.ok s1 ∧
      guidInPosts s1.posts p.feedID p.guid ∧
      (∃ q ∈ s1.posts, q.guid = p.guid ∧ q.feedID ≠ p.feedID) ∧
      ∀ q ∈ s.posts, q ∈ s1.posts := by
  obtain ⟨q0, hq0, hg0, hf0⟩ := h1
  refine ⟨_, createPost_eq_ok h2, ?_, ?_, ?_⟩
  · exact ⟨{ p with id := s.nextPostID },
      List.mem_append_right _ (List.mem_singleton.2 rfl), rfl, rfl⟩
  · exact ⟨q0, List.mem_append_left _ hq0, hg0, hf0⟩
  · intro q hq
    exact List.mem_append_left _ hq

theorem claim9_witness :
    ∃ s1, createPost s9 pAbc2 = Except.ok s1 ∧
      guidInPosts s1.posts pAbc2.feedID pAbc2.guid ∧
      (∃ q ∈ s1.posts, q.guid = pAbc2.guid ∧ q.feedID ≠ pAbc2.feedID) ∧
      ∀ q ∈ s9.posts, q ∈ s1.posts := by
  refine claim9_cross_source_guid_reuse s9 pAbc2
    ⟨rowAbc1, List.mem_singleton.2 rfl, rfl, by decide⟩ ?_
  rintro ⟨q, hq, hf, -⟩
  rw [List.mem_singleton.1 hq] at hf
  exact absurd hf (by decide)

/-- Claim C10: getImageURL is total and never takes the five-byte MIME slice
out of range: with the partial slice made explicit (`none` = the panic Go's
`Type[:5]` would raise), every item — including items whose enclosures carry
MIME types shorter than five characters or empty — evaluates to `some` of
the resolved image: the explicit image URL, else the URL of the first
enclosure whose declared type begins with "image", else the empty string. -/
theorem claim10_getImageURL_safe_total (item : Item) :
    getImageURLChecked item = some (getImageURL item) ∧
    getImageURLChecked item = some (specImageURL item) := by
  have h1 : getImageURLChecked item = some (getImageURL item) := by
    unfold getImageURLChecked getImageURL
    cases item.image with
    | some img => rfl
    | none => exact enclosureImageChecked_eq item.enclosures
  have h2 : getImageURL item = specImageURL item := by
    unfold getImageURL specImageURL
    cases item.image with
    | some img => rfl
    | none => exact enclosureImage_eq_spec item.enclosures
  exact ⟨h1, h2 ▸ h1⟩

end Rssy
